import Mathlib

/-!
Shallow embedding of the core of `mtfront/shopping-db-sync`
(`src/parse-spark-joy.js` and the two program variants in
`src/unnamed/part_000`): the "物" Markdown section scanner, the rating
extractor, the title cleaner, the frontmatter-URL decoration of entries,
and the title-keyed deduplicator, together with theorems checking the
natural-language specification against this embedding.

Strings are modelled as `List Char` (JavaScript strings of Unicode
code points); `String.data` converts literals.  JavaScript array
aliasing (the scanner pushes `currentEntry` into `entries` and may
mutate or re-push the very same object afterwards) is modelled by the
`pushedCopies` counter on an open entry: it counts the copies of the
current entry already sitting in the output array; each of those copies
always shows the entry's latest description, and they materialise when
the entry is abandoned for good.
-/

abbrev Str := List Char

/-- The set of characters matched by JavaScript's regexp class `\s`,
which is also exactly the set stripped by `String.prototype.trim`. -/
def jsSpaceChars : Str :=
  [' ', '\t', '\n', '\u000B', '\u000C', '\r', '\u00A0', '\u1680',
   '\u2000', '\u2001', '\u2002', '\u2003', '\u2004', '\u2005', '\u2006',
   '\u2007', '\u2008', '\u2009', '\u200A', '\u2028', '\u2029', '\u202F',
   '\u205F', '\u3000', '\uFEFF']

def jsIsSpace (c : Char) : Bool := jsSpaceChars.contains c

/-- JavaScript `String.prototype.trim`: strip whitespace from both ends. -/
def jsTrim (s : Str) : Str :=
  ((s.dropWhile jsIsSpace).reverse.dropWhile jsIsSpace).reverse

/-- JavaScript line terminators, which the regexp metacharacter `.` never
matches (the bullet pattern ends in a dot-star capture). -/
def lineTermChar (c : Char) : Bool :=
  c = '\n' || c = '\r' || c = '\u2028' || c = '\u2029'

/-- The backtick character (the bullet format delimits titles with it). -/
def tickChar : Char := Char.ofNat 96

/-- The left-brace character (Hugo shortcode openers are skipped). -/
def lbraceChar : Char := Char.ofNat 123

/-- JavaScript `Array.prototype.join(' ')`. -/
def joinSp : List Str → Str
  | [] => []
  | [x] => x
  | x :: y :: r => x ++ ' ' :: joinSp (y :: r)

/-- JavaScript `content.split('\n')`. -/
def splitNl : Str → List Str
  | [] => [[]]
  | c :: r =>
    let rest := splitNl r
    if c = '\n' then [] :: rest
    else
      match rest with
      | h :: t => (c :: h) :: t
      | [] => [[c]]

/-!  ## Line classifier

The two entry-opening shapes, embedded from the regular expressions

  `/^###\s+\[([^\]]+)\]\(([^)]+)\)/`  (heading form) and
  `/^-\s*BT([^BT]+)BT(?:\s+\[([^\]]+)\]\(([^)]+)\))?\s*(.*)$/`
  (bullet form, `BT` standing for a backtick).

Character classes such as `[^\]]+` exclude their closing delimiter, so
greedy matching is cut off at the first delimiter occurrence and the
regexes are deterministic; the embeddings below parse accordingly.  The
final `(.*)$` of the bullet form cannot cross a line terminator, so the
bullet match fails when such a character survives past the `\s*`. -/

/-- Match `/^###\s+\[([^\]]+)\]\(([^)]+)\)/`, returning the two capture
groups (title, url). -/
def headingMatch (s : Str) : Option (Str × Str) :=
  match s with
  | '#' :: '#' :: '#' :: r1 =>
    if (r1.takeWhile jsIsSpace).isEmpty then none
    else
      match r1.dropWhile jsIsSpace with
      | '[' :: r2 =>
        let g1 := r2.takeWhile (fun c => c != ']')
        if g1.isEmpty then none
        else
          match r2.dropWhile (fun c => c != ']') with
          | ']' :: '(' :: r3 =>
            let g2 := r3.takeWhile (fun c => c != ')')
            if g2.isEmpty then none
            else
              match r3.dropWhile (fun c => c != ')') with
              | ')' :: _ => some (g1, g2)
              | _ => none
          | _ => none
      | _ => none
  | _ => none

/-- The optional `(?:\s+\[([^\]]+)\]\(([^)]+)\))?` group of the bullet
regexp: on success returns (link text, url, remainder of the line). -/
def linkGroup (r : Str) : Option (Str × Str × Str) :=
  if (r.takeWhile jsIsSpace).isEmpty then none
  else
    match r.dropWhile jsIsSpace with
    | '[' :: r2 =>
      let g2 := r2.takeWhile (fun c => c != ']')
      if g2.isEmpty then none
      else
        match r2.dropWhile (fun c => c != ']') with
        | ']' :: '(' :: r3 =>
          let g3 := r3.takeWhile (fun c => c != ')')
          if g3.isEmpty then none
          else
            match r3.dropWhile (fun c => c != ')') with
            | ')' :: r5 => some (g2, g3, r5)
            | _ => none
        | _ => none
    | _ => none

/-- The trailing `\s*(.*)$` of the bullet regexp: greedy whitespace, then
a capture that may not contain a line terminator. -/
def trailingPart (r : Str) : Option Str :=
  let g4 := r.dropWhile jsIsSpace
  if g4.any lineTermChar then none else some g4

/-- Match the bullet regexp, returning (title, optional (link text, url),
trailing text).  If the optional link group matches but the trailing
capture then fails on a line terminator, the whole match fails, because
backtracking out of the link group leaves that terminator in place. -/
def bulletMatch (s : Str) : Option (Str × Option (Str × Str) × Str) :=
  match s with
  | '-' :: r1 =>
    match r1.dropWhile jsIsSpace with
    | c :: r2 =>
      if c = tickChar then
        let g1 := r2.takeWhile (fun d => d != tickChar)
        if g1.isEmpty then none
        else
          match r2.dropWhile (fun d => d != tickChar) with
          | _ :: r4 =>
            match linkGroup r4 with
            | some (g2, g3, rem) =>
              (trailingPart rem).map (fun g4 => (g1, some (g2, g3), g4))
            | none =>
              (trailingPart r4).map (fun g4 => (g1, none, g4))
          | [] => none
      else none
    | [] => none
  | _ => none

/-!  ## Rating extractor (`extractRating`, `cleanTitle`) -/

/-- The fixed emoji-to-rating mapping, in the object-literal insertion
order that `Object.entries` iterates. -/
def ratingPairs : List (Char × Nat) :=
  [('🤩', 5), ('👍', 4), ('🤷', 3), ('👎', 2), ('🤮', 1)]

/-- `extractRating`: rating of the first glyph, in mapping-iteration
order, that occurs anywhere in the title; 3 when none occurs. -/
def extractRating (title : Str) : Nat :=
  match ratingPairs.find? (fun p => title.contains p.1) with
  | some p => p.2
  | none => 3

/-- The five sentinel glyphs, in the order the cleaning loop visits. -/
def ratingEmojis : List Char := ['🤩', '👍', '🤷', '👎', '🤮']

/-- `cleanTitle`: globally delete every occurrence of each glyph (each
glyph is a single code point, so a global replace by the empty string is
a filter), then trim. -/
def cleanTitle (title : Str) : Str :=
  jsTrim (ratingEmojis.foldl (fun acc e => acc.filter (fun c => c != e)) title)

/-!  ## Section scanner, current variant

`parseWuSection` of `src/parse-spark-joy.js`, whose body is line-for-line
identical to `parseStuffSection` of the second program in
`src/unnamed/part_000` (rating extraction, cleaned titles, no link text,
and `currentEntry = null` at the section-closing heading). -/

/-- One parsed entry of the current variant.  `source`, `yearMonth` and
`postUrl` are attached by `main` after parsing and default to absent. -/
structure Entry where
  title : Str
  link : Option Str
  description : Str
  rating : Nat
  source : Option Str := none
  yearMonth : Option Str := none
  postUrl : Option Str := none
  deriving DecidableEq, Repr

/-- The currently open entry: the record under construction, its buffered
continuation lines (`entryLines`), and `pushedCopies`, the number of
aliased copies of this very object already pushed into the output array
by the premature push in the pseudo-opener branch (those copies keep
showing the object's latest description). -/
structure OpenEntry where
  entry : Entry
  entryLines : List Str
  pushedCopies : Nat
  deriving DecidableEq, Repr

/-- Scanner state: permanently finalized output entries, the open entry
if any, and the `inWuSection` flag. -/
structure ScanState where
  entries : List Entry
  cur : Option OpenEntry
  inWu : Bool
  deriving DecidableEq, Repr

/-- Closing an open entry: `currentEntry.description = entryLines.join(' ').trim()`. -/
def finalizeEntry (oe : OpenEntry) : Entry :=
  { oe.entry with description := jsTrim (joinSp oe.entryLines) }

/-- `entries.push(currentEntry)` on an object already pushed
`oe.pushedCopies` times: all aliased copies now show the final
description, so the array ends with `pushedCopies + 1` equal copies. -/
def emitClosed (entries : List Entry) (oe : OpenEntry) : List Entry :=
  entries ++ List.replicate (oe.pushedCopies + 1) (finalizeEntry oe)

/-- Close the current entry if one is open. -/
def closeCur (s : ScanState) : List Entry :=
  match s.cur with
  | some oe => emitClosed s.entries oe
  | none => s.entries

/-- The "save last entry" epilogue after the loop. -/
def finishScan (s : ScanState) : List Entry := closeCur s

/-- The section marker heading. -/
def wuMarker : Str := "## 物".data

/-- A second-level heading opener. -/
def h2Marker : Str := "## ".data

/-- `###` (pseudo-opener test in the continuation branch). -/
def hashes3 : Str := "###".data

/-- `-` (pseudo-opener test in the continuation branch). -/
def dashMarker : Str := "-".data

/-- Build the entry opened by a heading-form line, current variant:
title cleaned, rating from the raw title, url trimmed. -/
def openFromHeading (g1 g2 : Str) : OpenEntry :=
  let rawTitle := jsTrim g1
  { entry := { title := cleanTitle rawTitle, link := some (jsTrim g2),
               description := [], rating := extractRating rawTitle },
    entryLines := [], pushedCopies := 0 }

/-- Build the entry opened by a bullet-form line, current variant; the
trailing capture, when nonempty before and after trimming, seeds the
continuation buffer. -/
def openFromBullet (g1 : Str) (og : Option (Str × Str)) (g4 : Str) : OpenEntry :=
  let rawTitle := jsTrim g1
  { entry := { title := cleanTitle rawTitle,
               link := match og with
                       | some (_, u) => some (jsTrim u)
                       | none => none,
               description := [], rating := extractRating rawTitle },
    entryLines := if g4 ≠ [] ∧ jsTrim g4 ≠ [] then [jsTrim g4] else [],
    pushedCopies := 0 }

/-- Lines excluded from continuation text: shortcode openers, image
markers, and horizontal-rule-like separators. -/
def excludedLine (t : Str) : Bool :=
  [lbraceChar, lbraceChar].isPrefixOf t || "![".data.isPrefixOf t ||
    t == "<--->".data || "<---".data.isPrefixOf t

/-- The loop body of `parseWuSection` (current variant) on one line:
`Sum.inl` continues with the next state, `Sum.inr` is the `break` at a
section-closing heading (after which the epilogue sees a cleared
`currentEntry`, so the break's output is final). -/
def stepLine (s : ScanState) (line : Str) : Sum ScanState (List Entry) :=
  let t := jsTrim line
  if t = wuMarker ∨ wuMarker.isPrefixOf t = true then
    Sum.inl { s with inWu := true }
  else if s.inWu = true ∧ h2Marker.isPrefixOf t = true ∧ ¬ wuMarker.isPrefixOf t = true then
    Sum.inr (closeCur s)
  else if s.inWu = false then
    Sum.inl s
  else if t = [] ∧ s.cur = none then
    Sum.inl s
  else
    match headingMatch t with
    | some (g1, g2) =>
      Sum.inl { entries := closeCur s, cur := some (openFromHeading g1 g2), inWu := s.inWu }
    | none =>
      match bulletMatch t with
      | some (g1, og, g4) =>
        Sum.inl { entries := closeCur s, cur := some (openFromBullet g1 og g4), inWu := s.inWu }
      | none =>
        match s.cur with
        | none => Sum.inl s
        | some oe =>
          if t = [] then Sum.inl s
          else if hashes3.isPrefixOf t = true ∨ (dashMarker.isPrefixOf t = true ∧ t.contains tickChar = true) then
            -- the open entry is pushed before re-matching; the re-match
            -- repeats the two patterns that just failed above, so only
            -- the fallthrough is reachable, but we keep all branches
            match headingMatch t with
            | some (g1, g2) =>
              Sum.inl { entries := emitClosed s.entries oe,
                        cur := some (openFromHeading g1 g2), inWu := s.inWu }
            | none =>
              match bulletMatch t with
              | some (g1, og, g4) =>
                Sum.inl { entries := emitClosed s.entries oe,
                          cur := some (openFromBullet g1 og g4), inWu := s.inWu }
              | none =>
                Sum.inl { s with cur := some { oe with
                            entryLines := oe.entryLines ++ [t],
                            pushedCopies := oe.pushedCopies + 1 } }
          else if excludedLine t = true then
            Sum.inl s
          else
            Sum.inl { s with cur := some { oe with entryLines := oe.entryLines ++ [t] } }

/-- Run the scanner over the remaining lines. -/
def scanWu : List Str → ScanState → List Entry
  | [], s => finishScan s
  | l :: ls, s =>
    match stepLine s l with
    | Sum.inl s' => scanWu ls s'
    | Sum.inr out => out

/-- `parseWuSection` of `src/parse-spark-joy.js`. -/
def parseWuSection (content : Str) : List Entry :=
  scanWu (splitNl content) { entries := [], cur := none, inWu := false }

/-- `parseStuffSection` of the second program in `src/unnamed/part_000`
is line-for-line identical to `parseWuSection` of `src/parse-spark-joy.js`. -/
def parseStuffSection (content : Str) : List Entry :=
  parseWuSection content

/-!  ## Section scanner, older variant

`parseWuSection` of the first program in `src/unnamed/part_000`: it keeps
the raw title and a `linkText` field, extracts no rating, and — unlike
the current variant — does not clear `currentEntry` when it breaks at a
section-closing heading, so the epilogue pushes the very same object a
second time. -/

/-- One parsed entry of the older variant. -/
structure EntryV1 where
  title : Str
  link : Option Str
  linkText : Option Str
  description : Str
  source : Option Str := none
  yearMonth : Option Str := none
  deriving DecidableEq, Repr

structure OpenEntryV1 where
  entry : EntryV1
  entryLines : List Str
  pushedCopies : Nat
  deriving DecidableEq, Repr

structure ScanStateV1 where
  entries : List EntryV1
  cur : Option OpenEntryV1
  inWu : Bool
  deriving DecidableEq, Repr

def finalizeEntryV1 (oe : OpenEntryV1) : EntryV1 :=
  { oe.entry with description := jsTrim (joinSp oe.entryLines) }

def emitClosedV1 (entries : List EntryV1) (oe : OpenEntryV1) : List EntryV1 :=
  entries ++ List.replicate (oe.pushedCopies + 1) (finalizeEntryV1 oe)

def closeCurV1 (s : ScanStateV1) : List EntryV1 :=
  match s.cur with
  | some oe => emitClosedV1 s.entries oe
  | none => s.entries

def finishScanV1 (s : ScanStateV1) : List EntryV1 := closeCurV1 s

/-- Heading open, older variant: raw trimmed title, and the title doubles
as the link text. -/
def openFromHeadingV1 (g1 g2 : Str) : OpenEntryV1 :=
  { entry := { title := jsTrim g1, link := some (jsTrim g2),
               linkText := some (jsTrim g1), description := [] },
    entryLines := [], pushedCopies := 0 }

/-- Bullet open, older variant: raw trimmed title, optional link text and
url from the optional group. -/
def openFromBulletV1 (g1 : Str) (og : Option (Str × Str)) (g4 : Str) : OpenEntryV1 :=
  { entry := { title := jsTrim g1,
               link := match og with
                       | some (_, u) => some (jsTrim u)
                       | none => none,
               linkText := match og with
                           | some (lt, _) => some (jsTrim lt)
                           | none => none,
               description := [] },
    entryLines := if g4 ≠ [] ∧ jsTrim g4 ≠ [] then [jsTrim g4] else [],
    pushedCopies := 0 }

/-- Loop body of the older variant.  The only difference in control flow
from `stepLine` is the section-closing branch: the entry is pushed but
`currentEntry` is not cleared, so after the `break` the epilogue pushes
the same (aliased) object once more — hence `pushedCopies + 2` copies. -/
def stepLineV1 (s : ScanStateV1) (line : Str) : Sum ScanStateV1 (List EntryV1) :=
  let t := jsTrim line
  if t = wuMarker ∨ wuMarker.isPrefixOf t = true then
    Sum.inl { s with inWu := true }
  else if s.inWu = true ∧ h2Marker.isPrefixOf t = true ∧ ¬ wuMarker.isPrefixOf t = true then
    Sum.inr (match s.cur with
             | some oe => s.entries ++ List.replicate (oe.pushedCopies + 2) (finalizeEntryV1 oe)
             | none => s.entries)
  else if s.inWu = false then
    Sum.inl s
  else if t = [] ∧ s.cur = none then
    Sum.inl s
  else
    match headingMatch t with
    | some (g1, g2) =>
      Sum.inl { entries := closeCurV1 s, cur := some (openFromHeadingV1 g1 g2), inWu := s.inWu }
    | none =>
      match bulletMatch t with
      | some (g1, og, g4) =>
        Sum.inl { entries := closeCurV1 s, cur := some (openFromBulletV1 g1 og g4), inWu := s.inWu }
      | none =>
        match s.cur with
        | none => Sum.inl s
        | some oe =>
          if t = [] then Sum.inl s
          else if hashes3.isPrefixOf t = true ∨ (dashMarker.isPrefixOf t = true ∧ t.contains tickChar = true) then
            match headingMatch t with
            | some (g1, g2) =>
              Sum.inl { entries := emitClosedV1 s.entries oe,
                        cur := some (openFromHeadingV1 g1 g2), inWu := s.inWu }
            | none =>
              match bulletMatch t with
              | some (g1, og, g4) =>
                Sum.inl { entries := emitClosedV1 s.entries oe,
                          cur := some (openFromBulletV1 g1 og g4), inWu := s.inWu }
              | none =>
                Sum.inl { s with cur := some { oe with
                            entryLines := oe.entryLines ++ [t],
                            pushedCopies := oe.pushedCopies + 1 } }
          else if excludedLine t = true then
            Sum.inl s
          else
            Sum.inl { s with cur := some { oe with entryLines := oe.entryLines ++ [t] } }

def scanWuV1 : List Str → ScanStateV1 → List EntryV1
  | [], s => finishScanV1 s
  | l :: ls, s =>
    match stepLineV1 s l with
    | Sum.inl s' => scanWuV1 ls s'
    | Sum.inr out => out

/-- `parseWuSection` of the first program in `src/unnamed/part_000`. -/
def parseWuSectionV1 (content : Str) : List EntryV1 :=
  scanWuV1 (splitNl content) { entries := [], cur := none, inWu := false }

/-!  ## Entry decoration in `main` (second program of `src/unnamed/part_000`)

After parsing, `main` attaches `source` (and `yearMonth` in the
year-month path) to every entry and, when the document frontmatter
yielded a URL, a `postUrl`. -/

def urlPrefixStr : Str := "https://blog.douchi.space".data

def urlSuffixStr : Str := "?utm_source=notion_shopping".data

/-- Decoration applied to each entry in the direct-URL path:
`entry.postUrl = URL_PREFIX + frontmatterUrl + URL_SUFFIX + URL_SUFFIX`
(the suffix template reference appears twice in the source line). -/
def decorateDirect (arg : Str) (fmUrl : Option Str) (e : Entry) : Entry :=
  let e1 := { e with source := some arg }
  match fmUrl with
  | some u => { e1 with postUrl := some (urlPrefixStr ++ u ++ urlSuffixStr ++ urlSuffixStr) }
  | none => e1

/-- Decoration applied to each entry in the year-month path:
`entry.postUrl = 'https://blog.douchi.space' + frontmatterUrl` (inline
literal prefix, no suffix at all). -/
def decorateYearMonth (url yearMonth : Str) (fmUrl : Option Str) (e : Entry) : Entry :=
  let e1 := { e with source := some url, yearMonth := some yearMonth }
  match fmUrl with
  | some u => { e1 with postUrl := some ("https://blog.douchi.space".data ++ u) }
  | none => e1

/-!  ## Deduplicator (`main`, second program of `src/unnamed/part_000`) -/

/-- The dedup loop: a growing set of seen titles; first occurrence of a
title is kept, later occurrences are dropped. -/
def dedupeGo (seen : List Str) : List Entry → List Entry
  | [] => []
  | e :: rest =>
    if e.title ∈ seen then dedupeGo seen rest
    else e :: dedupeGo (e.title :: seen) rest

/-- `main`'s duplicate removal over the merged multi-document run. -/
def dedupe (entries : List Entry) : List Entry :=
  dedupeGo [] entries

/-!  ## Helper lemmas: trimming and glyph removal -/

theorem jsTrim_eq_rdropWhile (s : Str) :
    jsTrim s = List.rdropWhile jsIsSpace (List.dropWhile jsIsSpace s) := rfl

theorem head_dropWhile_false {α : Type} (p : α → Bool) (l : List α) (a : α) (r : List α)
    (h : l.dropWhile p = a :: r) : p a = false := by
  induction l with
  | nil => simp at h
  | cons x xs ih =>
    rw [List.dropWhile_cons] at h
    by_cases hx : p x
    · rw [if_pos hx] at h; exact ih h
    · rw [if_neg hx] at h
      cases h
      simpa using hx

theorem jsTrim_head?_not (s : Str) (a : Char) (h : (jsTrim s).head? = some a) :
    jsIsSpace a = false := by
  rw [jsTrim_eq_rdropWhile] at h
  obtain ⟨t, ht⟩ := List.rdropWhile_prefix jsIsSpace (List.dropWhile jsIsSpace s)
  cases hd : List.rdropWhile jsIsSpace (List.dropWhile jsIsSpace s) with
  | nil => rw [hd] at h; simp at h
  | cons b r =>
    rw [hd] at h ht
    simp only [List.head?_cons, Option.some.injEq] at h
    subst h
    exact head_dropWhile_false jsIsSpace s b (r ++ t) (by rw [← ht]; simp)

theorem jsTrim_getLast?_not (s : Str) (a : Char) (h : (jsTrim s).getLast? = some a) :
    jsIsSpace a = false := by
  rw [jsTrim_eq_rdropWhile] at h
  have hne : List.rdropWhile jsIsSpace (List.dropWhile jsIsSpace s) ≠ [] := by
    intro hc; rw [hc] at h; simp at h
  have := List.rdropWhile_last_not jsIsSpace (List.dropWhile jsIsSpace s) hne
  rw [List.getLast?_eq_getLast _ hne] at h
  simp only [Option.some.injEq] at h
  subst h
  simpa using this

theorem jsTrim_eq_self (s : Str)
    (h1 : ∀ a, s.head? = some a → jsIsSpace a = false)
    (h2 : ∀ a, s.getLast? = some a → jsIsSpace a = false) :
    jsTrim s = s := by
  rw [jsTrim_eq_rdropWhile]
  have hd : List.dropWhile jsIsSpace s = s := by
    cases s with
    | nil => rfl
    | cons b r =>
      have := h1 b rfl
      simp [List.dropWhile_cons, this]
  rw [hd, List.rdropWhile_eq_self_iff]
  intro hl
  have := h2 (s.getLast hl) (List.getLast?_eq_getLast _ hl)
  simp [this]

theorem jsTrim_idem (s : Str) : jsTrim (jsTrim s) = jsTrim s := by
  apply jsTrim_eq_self
  · exact jsTrim_head?_not s
  · exact jsTrim_getLast?_not s

theorem mem_jsTrim (s : Str) (a : Char) (h : a ∈ jsTrim s) : a ∈ s := by
  rw [jsTrim_eq_rdropWhile] at h
  obtain ⟨t, ht⟩ := List.rdropWhile_prefix jsIsSpace (List.dropWhile jsIsSpace s)
  have h2 : a ∈ List.dropWhile jsIsSpace s := by
    rw [← ht]; exact List.mem_append_left _ h
  exact (List.dropWhile_sublist jsIsSpace).mem h2

/-- The glyph-removal loop of `cleanTitle`, as a fold. -/
theorem mem_foldl_filter (es : List Char) (l : Str) (a : Char)
    (h : a ∈ es.foldl (fun acc e => acc.filter (fun c => c != e)) l) :
    a ∈ l ∧ ∀ e ∈ es, (a != e) = true := by
  induction es generalizing l with
  | nil => simpa using h
  | cons e0 es ih =>
    simp only [List.foldl_cons] at h
    obtain ⟨h1, h2⟩ := ih _ h
    rw [List.mem_filter] at h1
    exact ⟨h1.1, by
      intro e he
      rcases List.mem_cons.mp he with rfl | he'
      · exact h1.2
      · exact h2 e he'⟩

theorem foldl_filter_eq_self (es : List Char) (l : Str)
    (h : ∀ a ∈ l, ∀ e ∈ es, (a != e) = true) :
    es.foldl (fun acc e => acc.filter (fun c => c != e)) l = l := by
  induction es generalizing l with
  | nil => rfl
  | cons e0 es ih =>
    simp only [List.foldl_cons]
    have hf : l.filter (fun c => c != e0) = l :=
      List.filter_eq_self.mpr (fun a ha => h a ha e0 (List.mem_cons_self _ _))
    rw [hf]
    exact ih l (fun a ha e he => h a ha e (List.mem_cons_of_mem _ he))

theorem mem_cleanTitle (x : Str) (a : Char) (h : a ∈ cleanTitle x) :
    a ∈ x ∧ ∀ e ∈ ratingEmojis, (a != e) = true := by
  have h1 := mem_jsTrim _ a h
  obtain ⟨h2, h3⟩ := mem_foldl_filter ratingEmojis x a h1
  exact ⟨h2, h3⟩

/-- Shared helper: `cleanTitle` is idempotent. -/
theorem cleanTitle_idempotent (x : Str) : cleanTitle (cleanTitle x) = cleanTitle x := by
  show jsTrim (ratingEmojis.foldl _ (cleanTitle x)) = cleanTitle x
  rw [foldl_filter_eq_self _ _ (fun a ha e he => (mem_cleanTitle x a ha).2 e he)]
  exact jsTrim_idem _

/-!  ## Claims C7, C8, C10 -/

/-- C7: `extractRating` is total: for every string `x`, including the
empty string, the result is an integer in `1..5`; it is the rating of the
first matching sentinel glyph in the fixed mapping-iteration order
🤩=5, 👍=4, 🤷=3, 👎=2, 🤮=1 (not the glyph appearing first in the
string), and it is the default 3 when no glyph is present. -/
theorem spec_C7_extract_rating_total (x : Str) :
    (1 ≤ extractRating x ∧ extractRating x ≤ 5)
    ∧ ('🤩' ∈ x → extractRating x = 5)
    ∧ ('🤩' ∉ x → '👍' ∈ x → extractRating x = 4)
    ∧ ('🤩' ∉ x → '👍' ∉ x → '🤷' ∈ x → extractRating x = 3)
    ∧ ('🤩' ∉ x → '👍' ∉ x → '🤷' ∉ x → '👎' ∈ x → extractRating x = 2)
    ∧ ('🤩' ∉ x → '👍' ∉ x → '🤷' ∉ x → '👎' ∉ x → '🤮' ∈ x → extractRating x = 1)
    ∧ ('🤩' ∉ x → '👍' ∉ x → '🤷' ∉ x → '👎' ∉ x → '🤮' ∉ x → extractRating x = 3) := by
  by_cases h1 : '🤩' ∈ x <;> by_cases h2 : '👍' ∈ x <;> by_cases h3 : '🤷' ∈ x <;>
    by_cases h4 : '👎' ∈ x <;> by_cases h5 : '🤮' ∈ x <;>
      simp [extractRating, ratingPairs, List.find?, h1, h2, h3, h4, h5]

/-- Witness for C7 at the concrete title "🤷👍": although 🤷 comes first
by position, the mapping-iteration order gives 👍's rating 4. -/
theorem spec_C7_extract_rating_total_witness : extractRating "🤷👍".data = 4 :=
  (spec_C7_extract_rating_total "🤷👍".data).2.2.1 (by decide) (by decide)

/-- C8: `cleanTitle` is idempotent: it removes every occurrence of the
five sentinel glyphs and trims, so reapplying it is a no-op. -/
theorem spec_C8_clean_title_idem (x : Str) :
    cleanTitle (cleanTitle x) = cleanTitle x :=
  cleanTitle_idempotent x

/-- C10: `cleanTitle` removes exactly the five glyphs `extractRating`
searches for, so a cleaned title always yields the default rating 3. -/
theorem spec_C10_rating_of_clean (x : Str) :
    extractRating (cleanTitle x) = 3 := by
  have hf : ∀ e ∈ ratingEmojis, e ∉ cleanTitle x := by
    intro e he hm
    have := (mem_cleanTitle x e hm).2 e he
    simp at this
  have h1 := hf '🤩' (by decide)
  have h2 := hf '👍' (by decide)
  have h3 := hf '🤷' (by decide)
  have h4 := hf '👎' (by decide)
  have h5 := hf '🤮' (by decide)
  simp [extractRating, ratingPairs, List.find?, h1, h2, h3, h4, h5]

/-!  ## Claim C9: the deduplicator -/

theorem dedupeGo_sublist (seen : List Str) (xs : List Entry) :
    List.Sublist (dedupeGo seen xs) xs := by
  induction xs generalizing seen with
  | nil => simp [dedupeGo]
  | cons x rest ih =>
    simp only [dedupeGo]
    by_cases h : x.title ∈ seen
    · rw [if_pos h]; exact (ih seen).cons x
    · rw [if_neg h]; exact (ih (x.title :: seen)).cons₂ x

theorem dedupeGo_mem_not_seen (seen : List Str) (xs : List Entry) :
    ∀ e ∈ dedupeGo seen xs, e.title ∉ seen := by
  induction xs generalizing seen with
  | nil => simp [dedupeGo]
  | cons x rest ih =>
    simp only [dedupeGo]
    by_cases h : x.title ∈ seen
    · rw [if_pos h]; exact ih seen
    · rw [if_neg h]
      intro e he
      rcases List.mem_cons.mp he with rfl | he'
      · exact h
      · intro hc
        exact ih (x.title :: seen) e he' (List.mem_cons_of_mem _ hc)

theorem dedupeGo_pairwise (seen : List Str) (xs : List Entry) :
    (dedupeGo seen xs).Pairwise (fun a b => a.title ≠ b.title) := by
  induction xs generalizing seen with
  | nil => simp [dedupeGo]
  | cons x rest ih =>
    simp only [dedupeGo]
    by_cases h : x.title ∈ seen
    · rw [if_pos h]; exact ih seen
    · rw [if_neg h]
      refine List.Pairwise.cons ?_ (ih (x.title :: seen))
      intro b hb hc
      exact dedupeGo_mem_not_seen _ _ b hb (by rw [← hc]; exact List.mem_cons_self _ _)

theorem dedupeGo_find? (xs : List Entry) (seen : List Str) (t : Str) (ht : t ∉ seen) :
    (dedupeGo seen xs).find? (fun e => e.title == t) =
      xs.find? (fun e => e.title == t) := by
  induction xs generalizing seen with
  | nil => simp [dedupeGo]
  | cons x rest ih =>
    simp only [dedupeGo]
    by_cases h : x.title ∈ seen
    · rw [if_pos h]
      have hne : (x.title == t) = false := by
        rw [beq_eq_false_iff_ne]
        intro hc
        rw [hc] at h
        exact ht h
      rw [List.find?_cons, hne]
      exact ih seen ht
    · rw [if_neg h]
      by_cases hx : (x.title == t) = true
      · rw [List.find?_cons, List.find?_cons, hx]
      · have hxf : (x.title == t) = false := by simpa using hx
        rw [List.find?_cons, List.find?_cons, hxf]
        apply ih
        intro hc
        rcases List.mem_cons.mp hc with hc1 | hc2
        · rw [hc1] at hxf
          simp at hxf
        · exact ht hc2

theorem dedupeGo_eq_self (ys : List Entry) (seen : List Str)
    (h1 : ∀ e ∈ ys, e.title ∉ seen)
    (h2 : ys.Pairwise (fun a b => a.title ≠ b.title)) :
    dedupeGo seen ys = ys := by
  induction ys generalizing seen with
  | nil => rfl
  | cons x rest ih =>
    simp only [dedupeGo]
    rw [if_neg (h1 x (List.mem_cons_self _ _))]
    congr 1
    apply ih
    · intro e he hc
      rcases List.mem_cons.mp hc with hc1 | hc2
      · exact (List.pairwise_cons.mp h2).1 e he hc1.symm
      · exact h1 e (List.mem_cons_of_mem _ he) hc2
    · exact (List.pairwise_cons.mp h2).2

/-- C9: `dedupe` is a stable, order-preserving, single-pass filter keyed
on `title` alone, and idempotent: the output is a sublist of the input
(so kept entries retain their relative order), its titles are pairwise
distinct (every later entry with an already-seen title is dropped), the
first entry carrying any given title is exactly the first entry carrying
it in the input, and `dedupe (dedupe xs) = dedupe xs`. -/
theorem spec_C9_dedupe_props (xs : List Entry) :
    List.Sublist (dedupe xs) xs
    ∧ List.Pairwise (fun a b => a.title ≠ b.title) (dedupe xs)
    ∧ (∀ t : Str, (dedupe xs).find? (fun e => e.title == t) =
        xs.find? (fun e => e.title == t))
    ∧ dedupe (dedupe xs) = dedupe xs := by
  refine ⟨dedupeGo_sublist [] xs, dedupeGo_pairwise [] xs, ?_, ?_⟩
  · intro t
    exact dedupeGo_find? xs [] t (by simp)
  · exact dedupeGo_eq_self (dedupe xs) []
      (by intro e he; simp)
      (dedupeGo_pairwise [] xs)

/-!  ## Claim C6: titles in the scanner output -/

theorem finalizeEntry_title (oe : OpenEntry) :
    (finalizeEntry oe).title = oe.entry.title := rfl

theorem mem_emitClosed (es : List Entry) (oe : OpenEntry) (e : Entry)
    (h : e ∈ emitClosed es oe) : e ∈ es ∨ e = finalizeEntry oe := by
  rcases List.mem_append.mp h with h1 | h2
  · exact Or.inl h1
  · exact Or.inr (List.eq_of_mem_replicate h2)

/-- Titles are fixed points of `cleanTitle` on every entry of `closeCur`. -/
theorem clean_closeCur (s : ScanState)
    (h1 : ∀ e ∈ s.entries, cleanTitle e.title = e.title)
    (h2 : ∀ oe, s.cur = some oe → cleanTitle oe.entry.title = oe.entry.title) :
    ∀ e ∈ closeCur s, cleanTitle e.title = e.title := by
  intro e he
  unfold closeCur at he
  cases hc : s.cur with
  | none => rw [hc] at he; exact h1 e he
  | some oe =>
    rw [hc] at he
    rcases mem_emitClosed _ _ _ he with hm | hm
    · exact h1 e hm
    · rw [hm, finalizeEntry_title]
      exact h2 oe hc

theorem clean_openFromHeading (g1 g2 : Str) :
    cleanTitle (openFromHeading g1 g2).entry.title = (openFromHeading g1 g2).entry.title :=
  cleanTitle_idempotent (jsTrim g1)

theorem clean_openFromBullet (g1 : Str) (og : Option (Str × Str)) (g4 : Str) :
    cleanTitle (openFromBullet g1 og g4).entry.title = (openFromBullet g1 og g4).entry.title :=
  cleanTitle_idempotent (jsTrim g1)

/-- One scanner step preserves the cleanliness of all titles. -/
theorem stepLine_clean (s : ScanState) (l : Str)
    (h1 : ∀ e ∈ s.entries, cleanTitle e.title = e.title)
    (h2 : ∀ oe, s.cur = some oe → cleanTitle oe.entry.title = oe.entry.title) :
    (∀ s', stepLine s l = Sum.inl s' →
      ((∀ e ∈ s'.entries, cleanTitle e.title = e.title) ∧
        (∀ oe, s'.cur = some oe → cleanTitle oe.entry.title = oe.entry.title)))
    ∧ (∀ out, stepLine s l = Sum.inr out →
        ∀ e ∈ out, cleanTitle e.title = e.title) := by
  constructor
  · intro s' hs'
    simp only [stepLine] at hs'
    split at hs'
    · cases hs'
      exact ⟨h1, h2⟩
    · split at hs'
      · cases hs'
      · split at hs'
        · cases hs'
          exact ⟨h1, h2⟩
        · split at hs'
          · cases hs'
            exact ⟨h1, h2⟩
          · split at hs'
            · cases hs'
              refine ⟨clean_closeCur s h1 h2, ?_⟩
              intro oe hoe
              cases hoe
              exact clean_openFromHeading _ _
            · split at hs'
              · cases hs'
                refine ⟨clean_closeCur s h1 h2, ?_⟩
                intro oe hoe
                cases hoe
                exact clean_openFromBullet _ _ _
              · split at hs'
                · cases hs'
                  exact ⟨h1, h2⟩
                · rename_i oe hcur
                  split at hs'
                  · cases hs'
                    exact ⟨h1, h2⟩
                  · split at hs'
                    · split at hs'
                      · cases hs'
                        refine ⟨?_, ?_⟩
                        · intro e he
                          rcases mem_emitClosed _ _ _ he with hm | hm
                          · exact h1 e hm
                          · rw [hm, finalizeEntry_title]; exact h2 oe hcur
                        · intro oe' hoe'
                          cases hoe'
                          exact clean_openFromHeading _ _
                      · split at hs'
                        · cases hs'
                          refine ⟨?_, ?_⟩
                          · intro e he
                            rcases mem_emitClosed _ _ _ he with hm | hm
                            · exact h1 e hm
                            · rw [hm, finalizeEntry_title]; exact h2 oe hcur
                          · intro oe' hoe'
                            cases hoe'
                            exact clean_openFromBullet _ _ _
                        · cases hs'
                          refine ⟨h1, ?_⟩
                          intro oe' hoe'
                          cases hoe'
                          exact h2 oe hcur
                    · split at hs'
                      · cases hs'
                        exact ⟨h1, h2⟩
                      · cases hs'
                        refine ⟨h1, ?_⟩
                        intro oe' hoe'
                        cases hoe'
                        exact h2 oe hcur
  · intro out hout
    simp only [stepLine] at hout
    split at hout
    · cases hout
    · split at hout
      · cases hout
        exact clean_closeCur s h1 h2
      · split at hout
        · cases hout
        · split at hout
          · cases hout
          · split at hout
            · cases hout
            · split at hout
              · cases hout
              · split at hout
                · cases hout
                · split at hout
                  · cases hout
                  · split at hout
                    · split at hout
                      · cases hout
                      · split at hout
                        · cases hout
                        · cases hout
                    · split at hout
                      · cases hout
                      · cases hout

theorem scanWu_clean (ls : List Str) (s : ScanState)
    (h1 : ∀ e ∈ s.entries, cleanTitle e.title = e.title)
    (h2 : ∀ oe, s.cur = some oe → cleanTitle oe.entry.title = oe.entry.title) :
    ∀ e ∈ scanWu ls s, cleanTitle e.title = e.title := by
  induction ls generalizing s with
  | nil =>
    intro e he
    exact clean_closeCur s h1 h2 e he
  | cons l ls ih =>
    intro e he
    simp only [scanWu] at he
    cases hstep : stepLine s l with
    | inl s' =>
      rw [hstep] at he
      have hp := ((stepLine_clean s l h1 h2).1 s' hstep)
      exact ih s' hp.1 hp.2 e he
    | inr out =>
      rw [hstep] at he
      exact (stepLine_clean s l h1 h2).2 out hstep e he

/-- C6 counterexample: the document `"## 物\n- BT🤩BT x"` (BT a backtick)
produces an entry whose cleaned title is the empty string, refuting the
claim that every produced title is non-empty. -/
theorem spec_C6_empty_title_counterexample :
    ∃ e ∈ parseWuSection "## 物\n- `🤩` x".data, e.title = [] := by decide

/-- C6 amended: every entry produced by the scanner has a title that is a
fixed point of `cleanTitle` (sentinel glyphs removed, whitespace
trimmed); the title can be empty when the raw captured title consists
only of sentinel glyphs and whitespace. -/
theorem spec_C6_titles_are_clean (content : Str) :
    ∀ e ∈ parseWuSection content, cleanTitle e.title = e.title := by
  intro e he
  exact scanWu_clean _ _ (by intro e h; simp at h) (by intro oe h; simp at h) e he

/-- Witness for C6 amended, at a concrete document and entry. -/
theorem spec_C6_titles_are_clean_witness :
    ({ title := "A".data, link := none, description := "x".data, rating := 5 } : Entry) ∈
        parseWuSection "## 物\n- ` 🤩A ` x".data
    ∧ cleanTitle "A".data = "A".data :=
  ⟨by decide, spec_C6_titles_are_clean "## 物\n- ` 🤩A ` x".data
    { title := "A".data, link := none, description := "x".data, rating := 5 } (by decide)⟩

/-!  ## Claims C1, C2, C4: concrete evaluations at the failing inputs -/

/-- C1 failing input: in `"## 物\n- BTABT d1\n### anomaly\nmore"` (BT a
backtick) the line `### anomaly` starts with `###` but fails the full
heading pattern.  The continuation branch pushes the open entry before
re-matching, so the entry ends up in the output twice (the same aliased
object, whose description was mutated after the first push), refuting
the claim that such a line behaves exactly like ordinary continuation
text: plain continuation would produce this entry once. -/
theorem spec_C1_anomaly_duplicates :
    parseWuSection "## 物\n- `A` d1\n### anomaly\nmore".data =
      [{ title := "A".data, link := none,
         description := "d1 ### anomaly more".data, rating := 3 },
       { title := "A".data, link := none,
         description := "d1 ### anomaly more".data, rating := 3 }] := by decide

/-- C2 failing input: in the older variant (`parseWuSection` of the first
program in `src/unnamed/part_000`), the section-closing branch pushes the
open entry but does not clear `currentEntry`, so the epilogue pushes the
very same object again: the document `"## 物\n- BTABT d\n## 味"` yields
the entry twice, refuting "appended exactly once / no duplicated entry". -/
theorem spec_C2_close_duplicates :
    parseWuSectionV1 "## 物\n- `A` d\n## 味".data =
      [{ title := "A".data, link := none, linkText := none, description := "d".data },
       { title := "A".data, link := none, linkText := none, description := "d".data }] := by
  decide

/-- C4 failing input: with frontmatter URL `/p`, the direct-URL path
composes prefix + url + suffix + suffix (the suffix appears twice), while
the year-month path composes prefix + url with no suffix at all; the two
paths also disagree with each other. -/
theorem spec_C4_posturl_composition :
    (decorateDirect "https://raw.test/d.md".data (some "/p".data)
        { title := "X".data, link := none, description := [], rating := 3 }).postUrl =
      some (urlPrefixStr ++ "/p".data ++ urlSuffixStr ++ urlSuffixStr)
    ∧ (decorateYearMonth "https://raw.test/d.md".data "2025-11".data (some "/p".data)
        { title := "X".data, link := none, description := [], rating := 3 }).postUrl =
      some (urlPrefixStr ++ "/p".data)
    ∧ (decorateDirect "https://raw.test/d.md".data (some "/p".data)
        { title := "X".data, link := none, description := [], rating := 3 }).postUrl ≠
      (decorateYearMonth "https://raw.test/d.md".data "2025-11".data (some "/p".data)
        { title := "X".data, link := none, description := [], rating := 3 }).postUrl := by
  refine ⟨rfl, by decide, by decide⟩

/-!  ## Claim C5: a different second-level heading closes and halts -/

/-- C5: once the scanner is inside the section, a line whose trimmed form
starts a different second-level heading (prefix `## ` but not `## 物`)
makes the scanner close and append any open entry and stop: the output
is exactly the previously finalized entries plus the closed open entry,
and the remaining lines `rest` — even ones that re-open a like-named
section or open new entries — are never examined. -/
theorem spec_C5_section_close_halts (s : ScanState) (c : Str) (rest : List Str)
    (h1 : s.inWu = true)
    (h2 : h2Marker.isPrefixOf (jsTrim c) = true)
    (h3 : ¬ wuMarker.isPrefixOf (jsTrim c) = true) :
    scanWu (c :: rest) s = closeCur s := by
  have hstep : stepLine s c = Sum.inr (closeCur s) := by
    simp only [stepLine]
    rw [if_neg, if_pos]
    · exact ⟨h1, h2, h3⟩
    · rintro (hc | hc)
      · apply h3
        rw [hc]
        decide
      · exact h3 hc
  simp only [scanWu, hstep]

/-- Witness for C5: a concrete in-section state with an open entry, a
closing heading `## 味`, and a tail that re-opens `## 物` with a fresh
bullet; the tail is ignored and only the open entry is flushed. -/
theorem spec_C5_section_close_halts_witness :
    scanWu ["## 味".data, "## 物".data, "- `B` y".data]
        { entries := [],
          cur := some { entry := { title := "A".data, link := none,
                                   description := [], rating := 3 },
                        entryLines := ["d".data], pushedCopies := 0 },
          inWu := true } =
      closeCur
        { entries := [],
          cur := some { entry := { title := "A".data, link := none,
                                   description := [], rating := 3 },
                        entryLines := ["d".data], pushedCopies := 0 },
          inWu := true } :=
  spec_C5_section_close_halts _ _ _ rfl (by decide) (by decide)

/-!  ## Claim C3: output shape of the older scanner -/

theorem closeCurV1_prefix (s : ScanStateV1) :
    ∃ app, closeCurV1 s = s.entries ++ app := by
  unfold closeCurV1
  cases s.cur with
  | none => exact ⟨[], by simp⟩
  | some oe => exact ⟨_, rfl⟩

theorem stepLineV1_mono (s : ScanStateV1) (l : Str) :
    (∀ s', stepLineV1 s l = Sum.inl s' → ∃ app, s'.entries = s.entries ++ app)
    ∧ (∀ out, stepLineV1 s l = Sum.inr out → ∃ app, out = s.entries ++ app) := by
  constructor
  · intro s' hs'
    simp only [stepLineV1] at hs'
    split at hs'
    · cases hs'; exact ⟨[], by simp⟩
    · split at hs'
      · cases hs'
      · split at hs'
        · cases hs'; exact ⟨[], by simp⟩
        · split at hs'
          · cases hs'; exact ⟨[], by simp⟩
          · split at hs'
            · cases hs'
              exact closeCurV1_prefix s
            · split at hs'
              · cases hs'
                exact closeCurV1_prefix s
              · split at hs'
                · cases hs'; exact ⟨[], by simp⟩
                · split at hs'
                  · cases hs'; exact ⟨[], by simp⟩
                  · split at hs'
                    · split at hs'
                      · cases hs'
                        exact ⟨_, rfl⟩
                      · split at hs'
                        · cases hs'
                          exact ⟨_, rfl⟩
                        · cases hs'; exact ⟨[], by simp⟩
                    · split at hs'
                      · cases hs'; exact ⟨[], by simp⟩
                      · cases hs'; exact ⟨[], by simp⟩
  · intro out hout
    simp only [stepLineV1] at hout
    split at hout
    · cases hout
    · split at hout
      · cases hout
        split
        · exact ⟨_, rfl⟩
        · exact ⟨[], by simp⟩
      · split at hout
        · cases hout
        · split at hout
          · cases hout
          · split at hout
            · cases hout
            · split at hout
              · cases hout
              · split at hout
                · cases hout
                · split at hout
                  · cases hout
                  · split at hout
                    · split at hout
                      · cases hout
                      · split at hout
                        · cases hout
                        · cases hout
                    · split at hout
                      · cases hout
                      · cases hout

theorem scanWuV1_prefix (ls : List Str) (s : ScanStateV1) :
    ∃ r, scanWuV1 ls s = s.entries ++ r := by
  induction ls generalizing s with
  | nil =>
    simp only [scanWuV1, finishScanV1]
    exact closeCurV1_prefix s
  | cons l ls ih =>
    simp only [scanWuV1]
    cases hstep : stepLineV1 s l with
    | inl s' =>
      obtain ⟨app, happ⟩ := (stepLineV1_mono s l).1 s' hstep
      obtain ⟨r, hr⟩ := ih s'
      refine ⟨app ++ r, ?_⟩
      show scanWuV1 ls s' = _
      rw [hr, happ, List.append_assoc]
    | inr out =>
      exact (stepLineV1_mono s l).2 out hstep

/-- Tail of the output after permanently closing `oe`: whatever the
scanner still produces, the output begins with the closed prefix `c`
followed by the finalized entry. -/
theorem scanWuV1_after_close (ls : List Str) (c : List EntryV1) (oe : OpenEntryV1)
    (cur : Option OpenEntryV1) (w : Bool) :
    ∃ tail, scanWuV1 ls { entries := emitClosedV1 c oe, cur := cur, inWu := w } =
      c ++ (finalizeEntryV1 oe :: tail) := by
  obtain ⟨r, hr⟩ := scanWuV1_prefix ls { entries := emitClosedV1 c oe, cur := cur, inWu := w }
  refine ⟨List.replicate oe.pushedCopies (finalizeEntryV1 oe) ++ r, ?_⟩
  rw [hr]
  show emitClosedV1 c oe ++ r = _
  simp [emitClosedV1, List.replicate_succ, List.append_assoc]


/-- Step value: a section-marker line only sets the in-section flag. -/
theorem stepLineV1_marker (s : ScanStateV1) (l : Str)
    (h : jsTrim l = wuMarker ∨ List.isPrefixOf wuMarker (jsTrim l) = true) :
    stepLineV1 s l = Sum.inl { s with inWu := true } := by
  simp only [stepLineV1]
  rw [if_pos h]

/-- Step value: a different second-level heading while in the section
with an entry open — the older variant pushes the aliased object twice,
once at the break and once in the epilogue. -/
theorem stepLineV1_break (c : List EntryV1) (oe : OpenEntryV1) (l : Str)
    (h1 : ¬(jsTrim l = wuMarker ∨ List.isPrefixOf wuMarker (jsTrim l) = true))
    (h2 : List.isPrefixOf h2Marker (jsTrim l) = true) :
    stepLineV1 { entries := c, cur := some oe, inWu := true } l =
      Sum.inr (c ++ List.replicate (oe.pushedCopies + 2) (finalizeEntryV1 oe)) := by
  have h3 : ¬ List.isPrefixOf wuMarker (jsTrim l) = true := fun hh => h1 (Or.inr hh)
  have hc : True ∧ List.isPrefixOf h2Marker (jsTrim l) = true ∧
      ¬ List.isPrefixOf wuMarker (jsTrim l) = true := ⟨trivial, h2, h3⟩
  simp only [stepLineV1]
  rw [if_neg h1, if_pos hc]

/-- Step value: a heading-form line closes the open entry, if any, and
opens a new one. -/
theorem stepLineV1_headingOpen (c : List EntryV1) (cur : Option OpenEntryV1) (l g1 g2 : Str)
    (h1 : ¬(jsTrim l = wuMarker ∨ List.isPrefixOf wuMarker (jsTrim l) = true))
    (h2 : ¬ List.isPrefixOf h2Marker (jsTrim l) = true)
    (hne : ¬ jsTrim l = [])
    (hH : headingMatch (jsTrim l) = some (g1, g2)) :
    stepLineV1 { entries := c, cur := cur, inWu := true } l =
      Sum.inl { entries := closeCurV1 { entries := c, cur := cur, inWu := true },
                cur := some (openFromHeadingV1 g1 g2), inWu := true } := by
  have hbr : ¬(True ∧ List.isPrefixOf h2Marker (jsTrim l) = true ∧
      ¬ List.isPrefixOf wuMarker (jsTrim l) = true) := fun hh => h2 hh.2.1
  have h3 : ¬(true = false) := by decide
  have h4 : ¬(jsTrim l = [] ∧ cur = none) := fun hh => hne hh.1
  simp only [stepLineV1]
  rw [if_neg h1, if_neg hbr, if_neg h3, if_neg h4, hH]

/-- Step value: a bullet-form line closes the open entry, if any, and
opens a new one. -/
theorem stepLineV1_bulletOpen (c : List EntryV1) (cur : Option OpenEntryV1) (l g1 g4 : Str)
    (og : Option (Str × Str))
    (h1 : ¬(jsTrim l = wuMarker ∨ List.isPrefixOf wuMarker (jsTrim l) = true))
    (h2 : ¬ List.isPrefixOf h2Marker (jsTrim l) = true)
    (hne : ¬ jsTrim l = [])
    (hH : headingMatch (jsTrim l) = none)
    (hB : bulletMatch (jsTrim l) = some (g1, og, g4)) :
    stepLineV1 { entries := c, cur := cur, inWu := true } l =
      Sum.inl { entries := closeCurV1 { entries := c, cur := cur, inWu := true },
                cur := some (openFromBulletV1 g1 og g4), inWu := true } := by
  have hbr : ¬(True ∧ List.isPrefixOf h2Marker (jsTrim l) = true ∧
      ¬ List.isPrefixOf wuMarker (jsTrim l) = true) := fun hh => h2 hh.2.1
  have h3 : ¬(true = false) := by decide
  have h4 : ¬(jsTrim l = [] ∧ cur = none) := fun hh => hne hh.1
  simp only [stepLineV1]
  rw [if_neg h1, if_neg hbr, if_neg h3, if_neg h4, hH, hB]

/-- Step value: a blank line while an entry is open does nothing. -/
theorem stepLineV1_blank (c : List EntryV1) (oe : OpenEntryV1) (l : Str)
    (h : jsTrim l = []) :
    stepLineV1 { entries := c, cur := some oe, inWu := true } l =
      Sum.inl { entries := c, cur := some oe, inWu := true } := by
  simp only [stepLineV1]
  rw [h]
  rfl

/-- Step value: a pseudo-opener line (starts with `###`, or with `-` and
containing a backtick, but matching neither entry pattern) pushes the
open entry prematurely — the re-match repeats the patterns that just
failed — and then falls back to continuation. -/
theorem stepLineV1_anomaly (c : List EntryV1) (oe : OpenEntryV1) (l : Str)
    (h1 : ¬(jsTrim l = wuMarker ∨ List.isPrefixOf wuMarker (jsTrim l) = true))
    (h2 : ¬ List.isPrefixOf h2Marker (jsTrim l) = true)
    (hH : headingMatch (jsTrim l) = none)
    (hB : bulletMatch (jsTrim l) = none)
    (hne : ¬ jsTrim l = [])
    (hAn : List.isPrefixOf hashes3 (jsTrim l) = true ∨
      (List.isPrefixOf dashMarker (jsTrim l) = true ∧ List.contains (jsTrim l) tickChar = true)) :
    stepLineV1 { entries := c, cur := some oe, inWu := true } l =
      Sum.inl { entries := c,
                cur := some { oe with
                  entryLines := oe.entryLines ++ [jsTrim l],
                  pushedCopies := oe.pushedCopies + 1 },
                inWu := true } := by
  have hbr : ¬(True ∧ List.isPrefixOf h2Marker (jsTrim l) = true ∧
      ¬ List.isPrefixOf wuMarker (jsTrim l) = true) := fun hh => h2 hh.2.1
  have h3 : ¬(true = false) := by decide
  have h4 : ¬(jsTrim l = [] ∧ (some oe : Option OpenEntryV1) = none) := fun hh => hne hh.1
  simp only [stepLineV1]
  rw [if_neg h1, if_neg hbr, if_neg h3, if_neg h4, hH, hB, if_neg hne, if_pos hAn]

/-- Step value: an excluded marker line is skipped silently. -/
theorem stepLineV1_excluded (c : List EntryV1) (oe : OpenEntryV1) (l : Str)
    (h1 : ¬(jsTrim l = wuMarker ∨ List.isPrefixOf wuMarker (jsTrim l) = true))
    (h2 : ¬ List.isPrefixOf h2Marker (jsTrim l) = true)
    (hH : headingMatch (jsTrim l) = none)
    (hB : bulletMatch (jsTrim l) = none)
    (hne : ¬ jsTrim l = [])
    (hAn : ¬(List.isPrefixOf hashes3 (jsTrim l) = true ∨
      (List.isPrefixOf dashMarker (jsTrim l) = true ∧ List.contains (jsTrim l) tickChar = true)))
    (hEx : excludedLine (jsTrim l) = true) :
    stepLineV1 { entries := c, cur := some oe, inWu := true } l =
      Sum.inl { entries := c, cur := some oe, inWu := true } := by
  have hbr : ¬(True ∧ List.isPrefixOf h2Marker (jsTrim l) = true ∧
      ¬ List.isPrefixOf wuMarker (jsTrim l) = true) := fun hh => h2 hh.2.1
  have h3 : ¬(true = false) := by decide
  have h4 : ¬(jsTrim l = [] ∧ (some oe : Option OpenEntryV1) = none) := fun hh => hne hh.1
  simp only [stepLineV1]
  rw [if_neg h1, if_neg hbr, if_neg h3, if_neg h4, hH, hB, if_neg hne, if_neg hAn,
    if_pos hEx]

/-- Step value: an ordinary continuation line joins the buffer. -/
theorem stepLineV1_cont (c : List EntryV1) (oe : OpenEntryV1) (l : Str)
    (h1 : ¬(jsTrim l = wuMarker ∨ List.isPrefixOf wuMarker (jsTrim l) = true))
    (h2 : ¬ List.isPrefixOf h2Marker (jsTrim l) = true)
    (hH : headingMatch (jsTrim l) = none)
    (hB : bulletMatch (jsTrim l) = none)
    (hne : ¬ jsTrim l = [])
    (hAn : ¬(List.isPrefixOf hashes3 (jsTrim l) = true ∨
      (List.isPrefixOf dashMarker (jsTrim l) = true ∧ List.contains (jsTrim l) tickChar = true)))
    (hEx : ¬ excludedLine (jsTrim l) = true) :
    stepLineV1 { entries := c, cur := some oe, inWu := true } l =
      Sum.inl { entries := c,
                cur := some { oe with entryLines := oe.entryLines ++ [jsTrim l] },
                inWu := true } := by
  have hbr : ¬(True ∧ List.isPrefixOf h2Marker (jsTrim l) = true ∧
      ¬ List.isPrefixOf wuMarker (jsTrim l) = true) := fun hh => h2 hh.2.1
  have h3 : ¬(true = false) := by decide
  have h4 : ¬(jsTrim l = [] ∧ (some oe : Option OpenEntryV1) = none) := fun hh => hne hh.1
  simp only [stepLineV1]
  rw [if_neg h1, if_neg hbr, if_neg h3, if_neg h4, hH, hB, if_neg hne, if_neg hAn,
    if_neg hEx]

theorem headingMatch_nil : headingMatch [] = none := rfl

theorem bulletMatch_nil : bulletMatch [] = none := rfl

/-- While an entry is open, the scanner's output is the closed prefix,
then that entry — its description extending the current buffer by the
continuation fragments `extra`, each a nonempty trimmed line — then the
rest of the output. -/
theorem scanWuV1_open_first (ls : List Str) :
    ∀ (c : List EntryV1) (oe : OpenEntryV1),
    ∃ extra tail,
      scanWuV1 ls { entries := c, cur := some oe, inWu := true } =
        c ++ ({ oe.entry with
                description := jsTrim (joinSp (oe.entryLines ++ extra)) } :: tail)
      ∧ ∀ x ∈ extra, x ≠ [] ∧ jsTrim x = x := by
  induction ls with
  | nil =>
    intro c oe
    refine ⟨[], List.replicate oe.pushedCopies (finalizeEntryV1 oe), ?_, by simp⟩
    show finishScanV1 _ = _
    simp only [finishScanV1, closeCurV1, emitClosedV1, finalizeEntryV1,
      List.replicate_succ, List.append_nil, List.cons_append]
  | cons l ls ih =>
    intro c oe
    simp only [scanWuV1]
    by_cases hP1 : jsTrim l = wuMarker ∨ List.isPrefixOf wuMarker (jsTrim l) = true
    · rw [stepLineV1_marker _ _ hP1]
      exact ih c oe
    · by_cases hP2 : List.isPrefixOf h2Marker (jsTrim l) = true
      · rw [stepLineV1_break c oe l hP1 hP2]
        refine ⟨[], List.replicate (oe.pushedCopies + 1) (finalizeEntryV1 oe), ?_, by simp⟩
        show c ++ List.replicate (oe.pushedCopies + 2) (finalizeEntryV1 oe) = _
        simp only [finalizeEntryV1, List.replicate_succ, List.append_nil,
          List.cons_append]
      · cases hH : headingMatch (jsTrim l) with
        | some g12 =>
          obtain ⟨g1, g2⟩ := g12
          have hne : ¬ jsTrim l = [] := by
            intro hnil
            rw [hnil, headingMatch_nil] at hH
            cases hH
          rw [stepLineV1_headingOpen c (some oe) l g1 g2 hP1 hP2 hne hH]
          obtain ⟨tail, htail⟩ := scanWuV1_after_close ls c oe (some (openFromHeadingV1 g1 g2)) true
          refine ⟨[], tail, ?_, by simp⟩
          show scanWuV1 ls
              { entries := emitClosedV1 c oe,
                cur := some (openFromHeadingV1 g1 g2), inWu := true } = _
          rw [htail]
          simp [finalizeEntryV1]
        | none =>
          cases hB : bulletMatch (jsTrim l) with
          | some gog =>
            obtain ⟨g1, og, g4⟩ := gog
            have hne : ¬ jsTrim l = [] := by
              intro hnil
              rw [hnil, bulletMatch_nil] at hB
              cases hB
            rw [stepLineV1_bulletOpen c (some oe) l g1 g4 og hP1 hP2 hne hH hB]
            obtain ⟨tail, htail⟩ := scanWuV1_after_close ls c oe (some (openFromBulletV1 g1 og g4)) true
            refine ⟨[], tail, ?_, by simp⟩
            show scanWuV1 ls
                { entries := emitClosedV1 c oe,
                  cur := some (openFromBulletV1 g1 og g4), inWu := true } = _
            rw [htail]
            simp [finalizeEntryV1]
          | none =>
            by_cases hP5 : jsTrim l = []
            · rw [stepLineV1_blank c oe l hP5]
              exact ih c oe
            · by_cases hP6 : List.isPrefixOf hashes3 (jsTrim l) = true ∨
                  (List.isPrefixOf dashMarker (jsTrim l) = true ∧
                    List.contains (jsTrim l) tickChar = true)
              · rw [stepLineV1_anomaly c oe l hP1 hP2 hH hB hP5 hP6]
                obtain ⟨extra', tail', heq, hextra⟩ := ih c
                  { oe with
                    entryLines := oe.entryLines ++ [jsTrim l],
                    pushedCopies := oe.pushedCopies + 1 }
                rw [List.append_assoc] at heq
                refine ⟨jsTrim l :: extra', tail', heq, ?_⟩
                intro x hx
                rcases List.mem_cons.mp hx with rfl | hx'
                · exact ⟨hP5, jsTrim_idem l⟩
                · exact hextra x hx'
              · by_cases hP7 : excludedLine (jsTrim l) = true
                · rw [stepLineV1_excluded c oe l hP1 hP2 hH hB hP5 hP6 hP7]
                  exact ih c oe
                · rw [stepLineV1_cont c oe l hP1 hP2 hH hB hP5 hP6 hP7]
                  obtain ⟨extra', tail', heq, hextra⟩ := ih c
                    { oe with entryLines := oe.entryLines ++ [jsTrim l] }
                  rw [List.append_assoc] at heq
                  refine ⟨jsTrim l :: extra', tail', heq, ?_⟩
                  intro x hx
                  rcases List.mem_cons.mp hx with rfl | hx'
                  · exact ⟨hP5, jsTrim_idem l⟩
                  · exact hextra x hx'

theorem takeWhile_append_sep {α : Type} (p : α → Bool) (l₁ l₂ : List α) (b : α)
    (h : ∀ a ∈ l₁, p a = true) (hb : p b = false) :
    (l₁ ++ b :: l₂).takeWhile p = l₁ := by
  induction l₁ with
  | nil => simp [List.takeWhile_cons, hb]
  | cons x xs ih =>
    have hx := h x (List.mem_cons_self _ _)
    simp only [List.cons_append, List.takeWhile_cons, hx]
    rw [ih (fun a ha => h a (List.mem_cons_of_mem _ ha))]
    simp

theorem dropWhile_append_sep {α : Type} (p : α → Bool) (l₁ l₂ : List α) (b : α)
    (h : ∀ a ∈ l₁, p a = true) (hb : p b = false) :
    (l₁ ++ b :: l₂).dropWhile p = b :: l₂ := by
  induction l₁ with
  | nil => simp [List.dropWhile_cons, hb]
  | cons x xs ih =>
    have hx := h x (List.mem_cons_self _ _)
    simp only [List.cons_append, List.dropWhile_cons, hx]
    exact ih (fun a ha => h a (List.mem_cons_of_mem _ ha))

/-- `joinSp` of a nonempty first fragment begins with that fragment. -/
theorem joinSp_cons_exists (x : Str) (xs : List Str) :
    ∃ r, joinSp (x :: xs) = x ++ r := by
  cases xs with
  | nil => exact ⟨[], by simp [joinSp]⟩
  | cons y r => exact ⟨' ' :: joinSp (y :: r), rfl⟩

theorem joinSp_head? (x : Str) (xs : List Str) (hx : x ≠ []) :
    (joinSp (x :: xs)).head? = x.head? := by
  cases xs with
  | nil => rfl
  | cons y r =>
    show (x ++ ' ' :: joinSp (y :: r)).head? = x.head?
    exact List.head?_append_of_ne_nil _ hx

theorem joinSp_getLast? (xs : List Str) :
    ∀ x, x ≠ [] → (∀ z ∈ xs, z ≠ []) →
      (joinSp (x :: xs)).getLast? = ((x :: xs).getLast (by simp)).getLast? := by
  induction xs with
  | nil =>
    intro x hx _
    rfl
  | cons y r ih =>
    intro x hx hall
    show (x ++ ' ' :: joinSp (y :: r)).getLast? = _
    rw [List.getLast?_append_of_ne_nil _ (by simp)]
    have hy : y ≠ [] := hall y (List.mem_cons_self _ _)
    have hr : ∀ z ∈ r, z ≠ [] := fun z hz => hall z (List.mem_cons_of_mem _ hz)
    have hjoin : joinSp (y :: r) ≠ [] := by
      intro hc
      have := joinSp_head? y r hy
      rw [hc] at this
      cases hy (by
        cases y with
        | nil => rfl
        | cons a as => simp at this)
    rw [show (' ' :: joinSp (y :: r)).getLast? = (joinSp (y :: r)).getLast? from ?_]
    · rw [ih y hy hr]
      simp [List.getLast_cons]
    · show (([' '] ++ joinSp (y :: r)).getLast? = _)
      exact List.getLast?_append_of_ne_nil _ hjoin

/-- Joining nonempty trimmed fragments with single spaces yields a
string that trimming leaves unchanged. -/
theorem jsTrim_joinSp (l : List Str) (h : ∀ x ∈ l, x ≠ [] ∧ jsTrim x = x) :
    jsTrim (joinSp l) = joinSp l := by
  cases l with
  | nil => rfl
  | cons x xs =>
    have hx := h x (List.mem_cons_self _ _)
    apply jsTrim_eq_self
    · intro a ha
      rw [joinSp_head? x xs hx.1] at ha
      apply jsTrim_head?_not x
      rw [hx.2]
      exact ha
    · intro a ha
      rw [joinSp_getLast? xs x hx.1
        (fun z hz => (h z (List.mem_cons_of_mem _ hz)).1)] at ha
      have hlast := h ((x :: xs).getLast (by simp)) (List.getLast_mem _)
      apply jsTrim_getLast?_not ((x :: xs).getLast (by simp))
      rw [hlast.2]
      exact ha

theorem isEmpty_false_of_ne_nil {α : Type} (l : List α) (h : l ≠ []) :
    l.isEmpty = false := by
  cases l with
  | nil => exact absurd rfl h
  | cons a r => rfl

theorem getLast?_cons_of_ne_nil {α : Type} (a : α) (l : List α) (h : l ≠ []) :
    (a :: l).getLast? = l.getLast? := by
  show ([a] ++ l).getLast? = l.getLast?
  exact List.getLast?_append_of_ne_nil _ h

/-- The well-formed bullet line used by claim C3, written as a list. -/
theorem bLine_getLast? (T L U D : Str) (hD : D ≠ []) :
    ('-' :: ' ' :: tickChar :: (T ++ tickChar :: ' ' :: '[' ::
      (L ++ ']' :: '(' :: (U ++ ')' :: ' ' :: D)))).getLast? = D.getLast? := by
  rw [getLast?_cons_of_ne_nil _ _ (by simp),
    getLast?_cons_of_ne_nil _ _ (by simp),
    getLast?_cons_of_ne_nil _ _ (by simp),
    List.getLast?_append_of_ne_nil _ (by simp),
    getLast?_cons_of_ne_nil _ _ (by simp),
    getLast?_cons_of_ne_nil _ _ (by simp),
    getLast?_cons_of_ne_nil _ _ (by simp),
    List.getLast?_append_of_ne_nil _ (by simp),
    getLast?_cons_of_ne_nil _ _ (by simp),
    getLast?_cons_of_ne_nil _ _ (by simp),
    List.getLast?_append_of_ne_nil _ (by simp),
    getLast?_cons_of_ne_nil _ _ (by simp),
    getLast?_cons_of_ne_nil _ _ hD]

theorem bLine_trim (T L U D : Str) (hD1 : D ≠ []) (hD2 : jsTrim D = D) :
    jsTrim ('-' :: ' ' :: tickChar :: (T ++ tickChar :: ' ' :: '[' ::
      (L ++ ']' :: '(' :: (U ++ ')' :: ' ' :: D)))) =
    '-' :: ' ' :: tickChar :: (T ++ tickChar :: ' ' :: '[' ::
      (L ++ ']' :: '(' :: (U ++ ')' :: ' ' :: D))) := by
  apply jsTrim_eq_self
  · intro a ha
    have : a = '-' := by
      simp only [List.head?_cons, Option.some.injEq] at ha
      exact ha.symm
    rw [this]
    decide
  · intro a ha
    rw [bLine_getLast? T L U D hD1] at ha
    apply jsTrim_getLast?_not D a
    rw [hD2]
    exact ha

theorem if_true_eq {α : Sort u} (a b : α) : (if true = true then a else b) = a := rfl

theorem if_false_eq {α : Sort u} (a b : α) : (if false = true then a else b) = b := rfl

/-- The bullet regexp on a well-formed `- BTtitleBT [link](url) text`
line captures exactly the four components. -/
theorem bulletMatch_wellFormed (T L U D : Str)
    (hT1 : T ≠ []) (hT2 : ∀ a ∈ T, a ≠ tickChar)
    (hL1 : L ≠ []) (hL2 : ∀ a ∈ L, a ≠ ']')
    (hU1 : U ≠ []) (hU2 : ∀ a ∈ U, a ≠ ')')
    (hD2 : jsTrim D = D) (hD3 : ∀ a ∈ D, lineTermChar a = false) :
    bulletMatch ('-' :: ' ' :: tickChar :: (T ++ tickChar :: ' ' :: '[' ::
      (L ++ ']' :: '(' :: (U ++ ')' :: ' ' :: D)))) = some (T, some (L, U), D) := by
  have hsp : jsIsSpace ' ' = true := by decide
  have hst : jsIsSpace tickChar = false := by decide
  have hsl : jsIsSpace '[' = false := by decide
  have hT2' : ∀ a ∈ T, (fun d => d != tickChar) a = true := by
    intro a ha
    simpa using hT2 a ha
  have hL2' : ∀ a ∈ L, (fun d => d != ']') a = true := by
    intro a ha
    simpa using hL2 a ha
  have hU2' : ∀ a ∈ U, (fun d => d != ')') a = true := by
    intro a ha
    simpa using hU2 a ha
  have hdropD : D.dropWhile jsIsSpace = D := by
    cases hD : D with
    | nil => rfl
    | cons a r =>
      rw [List.dropWhile_cons]
      have : jsIsSpace a = false := by
        apply jsTrim_head?_not D
        rw [hD2, hD]
        rfl
      simp [this]
  have hanyD : D.any lineTermChar = false := by
    rw [List.any_eq_false]
    intro x hx
    simp [hD3 x hx]
  have htakeT := takeWhile_append_sep (fun d => d != tickChar) T
    (' ' :: '[' :: (L ++ ']' :: '(' :: (U ++ ')' :: ' ' :: D))) tickChar hT2' (by simp)
  have hdropT := dropWhile_append_sep (fun d => d != tickChar) T
    (' ' :: '[' :: (L ++ ']' :: '(' :: (U ++ ')' :: ' ' :: D))) tickChar hT2' (by simp)
  have htakeL := takeWhile_append_sep (fun c => c != ']') L
    ('(' :: (U ++ ')' :: ' ' :: D)) ']' hL2' (by simp)
  have hdropL := dropWhile_append_sep (fun c => c != ']') L
    ('(' :: (U ++ ')' :: ' ' :: D)) ']' hL2' (by simp)
  have htakeU := takeWhile_append_sep (fun c => c != ')') U
    (' ' :: D) ')' hU2' (by simp)
  have hdropU := dropWhile_append_sep (fun c => c != ')') U
    (' ' :: D) ')' hU2' (by simp)
  simp only [bulletMatch, linkGroup, trailingPart, List.takeWhile_cons,
    List.dropWhile_cons, hsp, hst, hsl, if_true_eq, if_false_eq, if_true,
    if_false, eq_self_iff_true, htakeT, hdropT, htakeL, hdropL, htakeU,
    hdropU, hdropD, isEmpty_false_of_ne_nil T hT1,
    isEmpty_false_of_ne_nil L hL1, isEmpty_false_of_ne_nil U hU1,
    List.isEmpty_cons, hanyD, Option.map_some']

/-- C3: for every well-formed bullet line `- BTtitleBT [link](url) text`
(BT a backtick) occurring inside the target section — at any scanner
state with arbitrary finalized entries and open entry, and any following
lines — the entry it opens carries title `T`, link text `L`, link `U`,
and a description beginning with `D` (hygiene hypotheses: the captures
are nonempty, free of their closing delimiters, trimmed, and `D` carries
no line terminator). -/
theorem spec_C3_bullet_entry (T L U D : Str) (rest : List Str)
    (c : List EntryV1) (cur : Option OpenEntryV1)
    (hT1 : T ≠ []) (hT2 : ∀ a ∈ T, a ≠ tickChar) (hT3 : jsTrim T = T)
    (hL1 : L ≠ []) (hL2 : ∀ a ∈ L, a ≠ ']') (hL3 : jsTrim L = L)
    (hU1 : U ≠ []) (hU2 : ∀ a ∈ U, a ≠ ')') (hU3 : jsTrim U = U)
    (hD1 : D ≠ []) (hD2 : jsTrim D = D) (hD3 : ∀ a ∈ D, lineTermChar a = false) :
    ∃ d tail,
      scanWuV1 (('-' :: ' ' :: tickChar :: (T ++ tickChar :: ' ' :: '[' ::
          (L ++ ']' :: '(' :: (U ++ ')' :: ' ' :: D)))) :: rest)
          { entries := c, cur := cur, inWu := true } =
        closeCurV1 { entries := c, cur := cur, inWu := true } ++
          ({ title := T, link := some U, linkText := some L, description := d } :: tail)
      ∧ ∃ suffix, d = D ++ suffix := by
  have htrim := bLine_trim T L U D hD1 hD2
  have hH : headingMatch (jsTrim ('-' :: ' ' :: tickChar :: (T ++ tickChar :: ' ' :: '[' ::
      (L ++ ']' :: '(' :: (U ++ ')' :: ' ' :: D))))) = none := by
    rw [htrim]
    rfl
  have hB : bulletMatch (jsTrim ('-' :: ' ' :: tickChar :: (T ++ tickChar :: ' ' :: '[' ::
      (L ++ ']' :: '(' :: (U ++ ')' :: ' ' :: D))))) = some (T, some (L, U), D) := by
    rw [htrim]
    exact bulletMatch_wellFormed T L U D hT1 hT2 hL1 hL2 hU1 hU2 hD2 hD3
  have hne : ¬ jsTrim ('-' :: ' ' :: tickChar :: (T ++ tickChar :: ' ' :: '[' ::
      (L ++ ']' :: '(' :: (U ++ ')' :: ' ' :: D)))) = [] := by
    rw [htrim]
    simp
  have hP1 : ¬(jsTrim ('-' :: ' ' :: tickChar :: (T ++ tickChar :: ' ' :: '[' ::
      (L ++ ']' :: '(' :: (U ++ ')' :: ' ' :: D)))) = wuMarker ∨
      List.isPrefixOf wuMarker (jsTrim ('-' :: ' ' :: tickChar :: (T ++ tickChar :: ' ' :: '[' ::
        (L ++ ']' :: '(' :: (U ++ ')' :: ' ' :: D))))) = true) := by
    rw [htrim]
    rintro (h | h)
    · have hh : (some '-' : Option Char) = wuMarker.head? := congrArg List.head? h
      exact absurd hh (by decide)
    · exact absurd h (by
        rw [show List.isPrefixOf wuMarker ('-' :: ' ' :: tickChar :: (T ++ tickChar :: ' ' :: '[' ::
          (L ++ ']' :: '(' :: (U ++ ')' :: ' ' :: D)))) = false from rfl]
        decide)
  have hP2 : ¬ List.isPrefixOf h2Marker (jsTrim ('-' :: ' ' :: tickChar :: (T ++ tickChar :: ' ' :: '[' ::
      (L ++ ']' :: '(' :: (U ++ ')' :: ' ' :: D))))) = true := by
    rw [htrim]
    rw [show List.isPrefixOf h2Marker ('-' :: ' ' :: tickChar :: (T ++ tickChar :: ' ' :: '[' ::
      (L ++ ']' :: '(' :: (U ++ ')' :: ' ' :: D)))) = false from rfl]
    decide
  obtain ⟨extra, tail, heq, hextra⟩ := scanWuV1_open_first rest
    (closeCurV1 { entries := c, cur := cur, inWu := true })
    (openFromBulletV1 T (some (L, U)) D)
  refine ⟨jsTrim (joinSp (D :: extra)), tail, ?_, ?_⟩
  · simp only [scanWuV1]
    rw [stepLineV1_bulletOpen c cur _ T D (some (L, U)) hP1 hP2 hne hH hB]
    show scanWuV1 rest
        { entries := closeCurV1 { entries := c, cur := cur, inWu := true },
          cur := some (openFromBulletV1 T (some (L, U)) D), inWu := true } = _
    rw [heq]
    simp [openFromBulletV1, hT3, hL3, hU3, hD2, hD1]
  · rw [jsTrim_joinSp (D :: extra) ?_]
    · exact joinSp_cons_exists D extra
    · intro x hx
      rcases List.mem_cons.mp hx with rfl | hx'
      · exact ⟨hD1, hD2⟩
      · exact hextra x hx'

/-- Witness for C3 at the concrete line from the specification's
scenario, with a continuation line following. -/
theorem spec_C3_bullet_entry_witness :
    ∃ d tail,
      scanWuV1 (('-' :: ' ' :: tickChar :: ("Widget".data ++ tickChar :: ' ' :: '[' ::
          ("buy".data ++ ']' :: '(' :: ("http://x".data ++ ')' :: ' ' :: "great toy".data)))) ::
          ["more text".data])
          { entries := [], cur := none, inWu := true } =
        closeCurV1 { entries := [], cur := none, inWu := true } ++
          ({ title := "Widget".data, link := some "http://x".data,
             linkText := some "buy".data, description := d } :: tail)
      ∧ ∃ suffix, d = "great toy".data ++ suffix :=
  spec_C3_bullet_entry "Widget".data "buy".data "http://x".data "great toy".data
    ["more text".data] [] none
    (by decide) (by decide) (by decide) (by decide) (by decide) (by decide)
    (by decide) (by decide) (by decide) (by decide) (by decide) (by decide)
